import Mathlib

/-!
Verification of the crystal-map plotting unit converter and the
orientation-symmetry reduction of this repository.

The unit converter (`convert_unit` in `orix/plot/crystal_map_plot.py`) and the
scalebar-width logic (`add_scalebar`) are embedded over exact rationals:
a Python float value becomes a `ℚ`, `np.floor(np.log10 x)` (for `x > 0`)
becomes `Int.log 10 x`, `np.floor(p / 3)` on the integer `p` becomes
`Int.fdiv p 3`, and Python list indexing (including its negative-index
wrap-around and its out-of-range failure) is modelled by `pyGet`.
Fallible paths return `Except ConvError`.
-/

attribute [local semireducible] Rat.add Rat.mul Rat.inv Rat.sub Rat.ofScientific

deriving instance DecidableEq for Except

/-- Errors with which a `convert_unit` call can fail instead of returning:
the `lookup_table[new_unit_idx]` lookup with `new_unit_idx = None` (unit not
in the table), the undefined `np.log10` of a non-positive value (whose
`nan`/`-inf` result makes the later `int(...)` conversion raise), and an
out-of-range `lookup_table[suitable_unit_idx]` index. -/
inductive ConvError where
  | unitNotFound
  | domainError
  | indexOutOfRange
deriving DecidableEq

/-- The prefix letters, `letters = "yzafpnum kMGTPEZY"` in the source. -/
def letters : List Char := "yzafpnum kMGTPEZY".toList

/-- `(letter + "m").strip(" ")` of the source: the unit name for one letter. -/
def currentUnit (c : Char) : String :=
  if c = ' ' then "m" else String.mk [c, 'm']

/-- The 17-entry lookup table `[(current_unit, 10 ** (3 * i - 24)) for i, letter
in enumerate(letters)]` built by `convert_unit`. -/
def lookup_table : List (String × ℚ) :=
  letters.enum.map fun ic => (currentUnit ic.2, (10 : ℚ) ^ ((3 : ℤ) * ic.1 - 24))

/-- The multiplier the source associates to an input unit string: the entry of
`lookup_table` whose name matches the unit, after the `"px" -> "um"`
normalisation.  `none` models `new_unit_idx` staying `None`. -/
def inputMultiplier (u : String) : Option ℚ :=
  (lookup_table.find? fun p => p.1 == (if u == "px" then "um" else u)).map Prod.snd

/-- Python list indexing `l[i]`: a negative index wraps around once
(`l[i] = l[len(l) + i]`), anything still out of range raises `IndexError`
(modelled by `none`). -/
def pyGet {α : Type} (l : List α) (i : ℤ) : Option α :=
  if i < 0 then
    if 0 ≤ i + l.length then l.get? (i + l.length).toNat else none
  else l.get? i.toNat

/-- The body of `convert_unit` after the `px` normalisation: `unit` is the
(already normalised) unit string and `unit_is_px` is the flag the source sets
at the top and consults when building `new_unit`.

* the unit lookup over the table mirrors the construction loop (the table
  names are pairwise distinct, so the first match is the loop's match);
* `power_of_value = np.floor(np.log10(value_in_metres))` is `Int.log 10`
  (exact floor of the base-10 logarithm); a non-positive `value_in_metres`
  makes `np.log10` return `nan`/`-inf` and the subsequent `int(...)` raise,
  modelled by the `domainError` branch guarding the same condition;
* `int(np.floor(power_of_value / 3) + 8)` is `Int.fdiv power 3 + 8`;
* `lookup_table[suitable_unit_idx]` is `pyGet`, with Python's negative-index
  wrap-around and out-of-range `IndexError`. -/
def convert_unit_core (value : ℚ) (unit : String) (unit_is_px : Bool) :
    Except ConvError (ℚ × String × ℚ) :=
  match lookup_table.find? fun p => p.1 == unit with
  | none => .error .unitNotFound
  | some (_, old_mult) =>
    if value * old_mult ≤ 0 then .error .domainError
    else
      match pyGet lookup_table (Int.fdiv (Int.log 10 (value * old_mult)) 3 + 8) with
      | none => .error .indexOutOfRange
      | some (su, new_mult) =>
        .ok (value * old_mult / new_mult,
             if unit_is_px then "px" else su,
             new_mult / old_mult)

/-- Shallow embedding of `convert_unit(value, unit)` of
`orix/plot/crystal_map_plot.py` (lines 546-610) over exact rationals:
if `unit` is the sentinel `"px"` it is replaced by `"um"` and the flag is
remembered, as in the source. -/
def convert_unit (value : ℚ) (unit : String) :
    Except ConvError (ℚ × String × ℚ) :=
  if unit == "px" then convert_unit_core value "um" true
  else convert_unit_core value unit false

-- Sanity: evaluation facts reachable without reducing `Int.log`.
example : inputMultiplier "nm" = some ((10 : ℚ) ^ (-(9 : ℤ))) := by decide
example : inputMultiplier "foo" = none := by decide
example : convert_unit (-3) "nm" = .error .domainError := by decide
example : pyGet lookup_table (-1) = some ("Ym", (10 : ℚ) ^ ((24 : ℤ))) := by decide

/-- `Int.log 10` is the unique exponent sandwiching its argument between
consecutive integer powers of ten. -/
theorem int_log_eq {x : ℚ} {e : ℤ} (h1 : (10 : ℚ) ^ e ≤ x)
    (h2 : x < (10 : ℚ) ^ (e + 1)) : Int.log 10 x = e := by
  have hx : 0 < x := lt_of_lt_of_le (zpow_pos (by norm_num) e) h1
  have hb : 1 < (10 : ℕ) := by norm_num
  have hle : e ≤ Int.log 10 x := by
    refine (Int.zpow_le_iff_le_log hb hx).1 ?_
    exact_mod_cast h1
  have hlt : Int.log 10 x < e + 1 := by
    refine (Int.lt_zpow_iff_log_lt hb hx).1 ?_
    exact_mod_cast h2
  omega

/-- Every multiplier in the lookup table is positive. -/
theorem lookup_table_pos : ∀ p ∈ lookup_table, (0 : ℚ) < p.2 := by decide

/-- A successful Python-style lookup returns an element of the list. -/
theorem mem_of_pyGet {α : Type} {l : List α} {i : ℤ} {a : α}
    (h : pyGet l i = some a) : a ∈ l := by
  unfold pyGet at h
  split at h
  · split at h
    · exact List.get?_mem h
    · exact absurd h (by simp)
  · exact List.get?_mem h

/-- The wrapper agrees with the core on the normalised unit and flag. -/
theorem convert_unit_eq_core (v : ℚ) (u : String) :
    convert_unit v u
      = convert_unit_core v (if u == "px" then "um" else u) (u == "px") := by
  unfold convert_unit
  cases h : u == "px" <;> simp [h]

/-- Evaluation rule for the successful path of the core, phrased so that the
`Int.log` computation is pinned by explicit power-of-ten bounds. -/
theorem convert_unit_core_ok (v : ℚ) (u su0 : String) (mo : ℚ) (px : Bool)
    (e : ℤ) (entry : String × ℚ)
    (hfind : lookup_table.find? (fun p => p.1 == u) = some (su0, mo))
    (h1 : (10 : ℚ) ^ e ≤ v * mo) (h2 : v * mo < (10 : ℚ) ^ (e + 1))
    (hget : pyGet lookup_table (Int.fdiv e 3 + 8) = some entry) :
    convert_unit_core v u px
      = .ok (v * mo / entry.2, if px then "px" else entry.1, entry.2 / mo) := by
  have hx : 0 < v * mo := lt_of_lt_of_le (zpow_pos (by norm_num) e) h1
  have hlog : Int.log 10 (v * mo) = e := int_log_eq h1 h2
  obtain ⟨su, mn⟩ := entry
  simp only [convert_unit_core, hfind, if_neg (not_le.mpr hx), hlog, hget]

/-- Evaluation rule for the path where the suitable-unit index is out of
range even for Python's wrap-around indexing. -/
theorem convert_unit_core_idx_err (v : ℚ) (u su0 : String) (mo : ℚ) (px : Bool)
    (e : ℤ)
    (hfind : lookup_table.find? (fun p => p.1 == u) = some (su0, mo))
    (h1 : (10 : ℚ) ^ e ≤ v * mo) (h2 : v * mo < (10 : ℚ) ^ (e + 1))
    (hget : pyGet lookup_table (Int.fdiv e 3 + 8) = none) :
    convert_unit_core v u px = .error .indexOutOfRange := by
  have hx : 0 < v * mo := lt_of_lt_of_le (zpow_pos (by norm_num) e) h1
  have hlog : Int.log 10 (v * mo) = e := int_log_eq h1 h2
  simp only [convert_unit_core, hfind, if_neg (not_le.mpr hx), hlog, hget]

/-- Round-trip of the core: a successful result multiplies back to the input
value, and the factor is the quotient of a table multiplier by the input
unit's multiplier. -/
theorem convert_unit_core_roundtrip (v : ℚ) (u : String) (px : Bool)
    (nv nu : _) (f : ℚ) (h : convert_unit_core v u px = .ok (nv, nu, f)) :
    nv * f = v ∧
      ∃ mo, (lookup_table.find? fun p => p.1 == u).map Prod.snd = some mo ∧
        ∃ p ∈ lookup_table, f = p.2 / mo := by
  unfold convert_unit_core at h
  split at h
  · exact absurd h (by simp)
  · next su0 mo hfind =>
    split at h
    · exact absurd h (by simp)
    · next hpos =>
      split at h
      · exact absurd h (by simp)
      · next su mn hget =>
        simp only [Except.ok.injEq, Prod.mk.injEq] at h
        obtain ⟨h1, _, h3⟩ := h
        have hmem : (su, mn) ∈ lookup_table := mem_of_pyGet hget
        have hmo : (su0, mo) ∈ lookup_table := List.mem_of_find?_eq_some hfind
        have hmo0 : mo ≠ 0 := ne_of_gt (lookup_table_pos _ hmo)
        have hmn0 : mn ≠ 0 := ne_of_gt (lookup_table_pos _ hmem)
        subst h1 h3
        refine ⟨by field_simp, mo, by rw [hfind]; rfl, (su, mn), hmem, rfl⟩

/-- C1: Round-trip of the unit converter: whenever `convert_unit` succeeds on
a value and a recognized unit, the returned `new_value * factor` equals the
input value (which is already expressed in the original unit), and `factor`
is the chosen table entry's multiplier divided by the input unit's
multiplier. -/
theorem convert_unit_roundtrip (v : ℚ) (u : String) (nv : ℚ) (nu : String)
    (f : ℚ) (h : convert_unit v u = .ok (nv, nu, f)) :
    nv * f = v ∧
      ∃ mo, inputMultiplier u = some mo ∧ ∃ p ∈ lookup_table, f = p.2 / mo := by
  rw [convert_unit_eq_core] at h
  have hc := convert_unit_core_roundtrip _ _ _ _ _ _ h
  simpa only [inputMultiplier] using hc

/-- A unit other than `"px"` goes to the core with the flag cleared. -/
theorem convert_unit_nonpx (v : ℚ) (u : String) (h : (u == "px") = false) :
    convert_unit v u = convert_unit_core v u false := by
  rw [convert_unit_eq_core, h]
  simp

/-- The `"px"` sentinel goes to the core as `"um"` with the flag set. -/
theorem convert_unit_px_core (v : ℚ) :
    convert_unit v "px" = convert_unit_core v "um" true := by
  rw [convert_unit_eq_core]
  simp

/-- Evaluation of the documented example, shared by several witnesses. -/
theorem convert_unit_nm_eval : convert_unit 17550 "nm" = .ok (17.55, "um", 1000) := by
  rw [convert_unit_nonpx 17550 "nm" (by decide)]
  exact (convert_unit_core_ok 17550 "nm" "nm" ((10 : ℚ) ^ (-(9 : ℤ))) false
    (-5) ("um", (10 : ℚ) ^ (-(6 : ℤ)))
    (by decide) (by decide) (by decide) (by decide)).trans (by decide)

/-- Witness for C1 at the documented example input. -/
theorem convert_unit_roundtrip_witness :
    (17.55 : ℚ) * 1000 = 17550 ∧
      ∃ mo, inputMultiplier "nm" = some mo ∧
        ∃ p ∈ lookup_table, (1000 : ℚ) = p.2 / mo :=
  convert_unit_roundtrip 17550 "nm" 17.55 "um" 1000 convert_unit_nm_eval

/-- The multiplier stored at an in-range index of the lookup table. -/
theorem pyGet_lookup_table (k : ℤ) (h0 : 0 ≤ k) (h1 : k ≤ 16) :
    (pyGet lookup_table k).map Prod.snd = some ((10 : ℚ) ^ (3 * k - 24)) := by
  interval_cases k <;> decide

/-- C2: for a positive value in a recognized unit whose magnitude in metres is
within the table's range `[10^-24, 10^27)`, the converter selects the table
index `floor(floor(log10 value_in_metres) / 3) + 8`, succeeds, and returns a
`new_value` in the half-open interval `[1, 1000)`. -/
theorem convert_unit_mantissa_range (v : ℚ) (u : String) (mo : ℚ)
    (hmo : inputMultiplier u = some mo)
    (hlo : (10 : ℚ) ^ (-24 : ℤ) ≤ v * mo)
    (hhi : v * mo < (10 : ℚ) ^ (27 : ℤ)) :
    ∃ entry : String × ℚ,
      pyGet lookup_table (Int.fdiv (Int.log 10 (v * mo)) 3 + 8) = some entry ∧
      convert_unit v u
        = .ok (v * mo / entry.2,
               if u == "px" then "px" else entry.1, entry.2 / mo) ∧
      1 ≤ v * mo / entry.2 ∧ v * mo / entry.2 < 1000 := by
  obtain ⟨p, hfind, hp2⟩ := Option.map_eq_some'.mp hmo
  obtain ⟨su0, mo'⟩ := p
  cases hp2
  have hx : 0 < v * mo' :=
    lt_of_lt_of_le (zpow_pos (by norm_num) (-24 : ℤ)) hlo
  have h1 : (10 : ℚ) ^ (Int.log 10 (v * mo')) ≤ v * mo' := by
    exact_mod_cast Int.zpow_log_le_self (b := 10) (by norm_num) hx
  have h2 : v * mo' < (10 : ℚ) ^ (Int.log 10 (v * mo') + 1) := by
    exact_mod_cast Int.lt_zpow_succ_log_self (b := 10) (by norm_num) (v * mo')
  have hel : (-24 : ℤ) ≤ Int.log 10 (v * mo') := by
    refine (Int.zpow_le_iff_le_log (by norm_num) hx).1 ?_
    exact_mod_cast hlo
  have heu : Int.log 10 (v * mo') < 27 := by
    refine (Int.lt_zpow_iff_log_lt (by norm_num) hx).1 ?_
    exact_mod_cast hhi
  have hfd : Int.fdiv (Int.log 10 (v * mo')) 3 = Int.log 10 (v * mo') / 3 :=
    Int.fdiv_eq_ediv _ (by norm_num)
  have hdm := Int.ediv_add_emod (Int.log 10 (v * mo')) 3
  have hml := Int.emod_nonneg (Int.log 10 (v * mo')) (by norm_num : (3 : ℤ) ≠ 0)
  have hmu := Int.emod_lt_of_pos (Int.log 10 (v * mo')) (by norm_num : (0 : ℤ) < 3)
  have hm1 : (-8 : ℤ) ≤ Int.log 10 (v * mo') / 3 := by
    have h := Int.ediv_le_ediv (by norm_num : (0 : ℤ) < 3) hel
    simpa using h
  have hm2 : Int.log 10 (v * mo') / 3 ≤ 8 := by
    have h := Int.ediv_le_ediv (by norm_num : (0 : ℤ) < 3)
      (show Int.log 10 (v * mo') ≤ 26 by omega)
    simpa using h
  have hkget := pyGet_lookup_table (Int.log 10 (v * mo') / 3 + 8)
    (by omega) (by omega)
  obtain ⟨entry, hget, hsnd⟩ := Option.map_eq_some'.mp hkget
  have hexp : 3 * (Int.log 10 (v * mo') / 3 + 8) - 24
      = 3 * (Int.log 10 (v * mo') / 3) := by ring
  have hsnd' : entry.2 = (10 : ℚ) ^ (3 * (Int.log 10 (v * mo') / 3)) := by
    rw [hsnd, hexp]
  have hMpos : (0 : ℚ) < entry.2 := by
    rw [hsnd']
    exact zpow_pos (by norm_num) _
  have hle3 : (10 : ℚ) ^ (3 * (Int.log 10 (v * mo') / 3))
      ≤ (10 : ℚ) ^ (Int.log 10 (v * mo')) :=
    zpow_le_zpow_right₀ (by norm_num) (by omega)
  have hlt3 : (10 : ℚ) ^ (Int.log 10 (v * mo') + 1)
      ≤ (10 : ℚ) ^ (3 * (Int.log 10 (v * mo') / 3) + 3) :=
    zpow_le_zpow_right₀ (by norm_num) (by omega)
  have hsplit : (10 : ℚ) ^ (3 * (Int.log 10 (v * mo') / 3) + 3)
      = 1000 * (10 : ℚ) ^ (3 * (Int.log 10 (v * mo') / 3)) := by
    rw [zpow_add₀ (by norm_num : (10 : ℚ) ≠ 0)]
    norm_num
    ring
  refine ⟨entry, by rw [hfd]; exact hget, ?_, ?_, ?_⟩
  · rw [convert_unit_eq_core]
    exact convert_unit_core_ok v _ su0 mo' (u == "px") (Int.log 10 (v * mo'))
      entry hfind h1 h2 (by rw [hfd]; exact hget)
  · rw [hsnd', one_le_div (by positivity)]
    exact le_trans hle3 h1
  · rw [hsnd', div_lt_iff₀ (by positivity)]
    calc v * mo' < (10 : ℚ) ^ (Int.log 10 (v * mo') + 1) := h2
    _ ≤ (10 : ℚ) ^ (3 * (Int.log 10 (v * mo') / 3) + 3) := hlt3
    _ = 1000 * (10 : ℚ) ^ (3 * (Int.log 10 (v * mo') / 3)) := hsplit

/-- Witness for C2 at the documented example input `17550 nm`. -/
theorem convert_unit_mantissa_range_witness :
    ∃ entry : String × ℚ,
      pyGet lookup_table
          (Int.fdiv (Int.log 10 (17550 * (10 : ℚ) ^ (-(9 : ℤ)))) 3 + 8)
        = some entry ∧
      convert_unit 17550 "nm"
        = .ok (17550 * (10 : ℚ) ^ (-(9 : ℤ)) / entry.2,
               if "nm" == "px" then "px" else entry.1,
               entry.2 / (10 : ℚ) ^ (-(9 : ℤ))) ∧
      1 ≤ 17550 * (10 : ℚ) ^ (-(9 : ℤ)) / entry.2 ∧
      17550 * (10 : ℚ) ^ (-(9 : ℤ)) / entry.2 < 1000 :=
  convert_unit_mantissa_range 17550 "nm" ((10 : ℚ) ^ (-(9 : ℤ)))
    (by decide) (by decide) (by decide)

/-- C3: error behaviour: a non-positive value with a recognized unit fails
with the domain error, and a unit string missing from the 17-entry table
fails with the unit-lookup error; neither path returns a result. -/
theorem convert_unit_error_behaviour :
    (∀ v : ℚ, ∀ u : String, (inputMultiplier u).isSome → v ≤ 0 →
        convert_unit v u = .error .domainError) ∧
    (∀ v : ℚ, ∀ u : String, inputMultiplier u = none →
        convert_unit v u = .error .unitNotFound) := by
  constructor
  · intro v u hsome hv
    obtain ⟨mo, hmo⟩ := Option.isSome_iff_exists.mp hsome
    obtain ⟨p, hfind, hp2⟩ := Option.map_eq_some'.mp hmo
    obtain ⟨su0, mo'⟩ := p
    have hpos := lookup_table_pos _ (List.mem_of_find?_eq_some hfind)
    have hnp : v * mo' ≤ 0 :=
      mul_nonpos_iff.2 (Or.inr ⟨hv, le_of_lt hpos⟩)
    rw [convert_unit_eq_core]
    simp only [convert_unit_core, hfind, if_pos hnp]
  · intro v u hnone
    have hfind :
        (lookup_table.find? fun p => p.1 == (if u == "px" then "um" else u))
          = none := Option.map_eq_none'.mp hnone
    rw [convert_unit_eq_core]
    simp only [convert_unit_core, hfind]

/-- Witness for C3: a negative value in `"nm"`, and the unknown unit
`"foo"`. -/
theorem convert_unit_error_behaviour_witness :
    ((inputMultiplier "nm").isSome ∧ (-3 : ℚ) ≤ 0 ∧
        convert_unit (-3) "nm" = .error .domainError) ∧
    (inputMultiplier "foo" = none ∧
        convert_unit 5 "foo" = .error .unitNotFound) :=
  ⟨⟨by decide, by norm_num,
      convert_unit_error_behaviour.1 (-3) "nm" (by decide) (by norm_num)⟩,
    ⟨by decide, convert_unit_error_behaviour.2 5 "foo" (by decide)⟩⟩

/-- C4: the documented example: `convert_unit(17.55e3, "nm")` returns
`17.55`, the unit `"um"`, and (in exact arithmetic) the factor `1000`. -/
theorem convert_unit_documented_example :
    convert_unit 17.55e3 "nm" = .ok (17.55, "um", 1000) := by
  rw [show (17.55e3 : ℚ) = 17550 by norm_num]
  exact convert_unit_nm_eval

/-- The `unit_is_px` flag only changes the returned unit string to `"px"`. -/
theorem convert_unit_core_px_flag (v : ℚ) (u : String) (nv : ℚ) (nu : String)
    (f : ℚ) (h : convert_unit_core v u false = .ok (nv, nu, f)) :
    convert_unit_core v u true = .ok (nv, "px", f) := by
  unfold convert_unit_core at h ⊢
  cases hfind : lookup_table.find? fun p => p.1 == u with
  | none => rw [hfind] at h; exact absurd h (by simp)
  | some pr =>
    obtain ⟨su0, mo⟩ := pr
    simp only [hfind] at h ⊢
    by_cases hpos : v * mo ≤ 0
    · rw [if_pos hpos] at h; exact absurd h (by simp)
    · rw [if_neg hpos] at h ⊢
      cases hget : pyGet lookup_table (Int.fdiv (Int.log 10 (v * mo)) 3 + 8) with
      | none => rw [hget] at h; exact absurd h (by simp)
      | some e2 =>
        obtain ⟨su, mn⟩ := e2
        simp only [hget, Except.ok.injEq, Prod.mk.injEq] at h ⊢
        obtain ⟨h1, _, h3⟩ := h
        exact ⟨h1, rfl, h3⟩

/-- C5: the `"px"` sentinel: for a positive value, `convert_unit` on `"px"`
returns exactly the `new_value` and `factor` of the same call on `"um"`,
with the returned unit string restored to `"px"`. -/
theorem convert_unit_px_sentinel (v : ℚ) (hv : 0 < v) (nv : ℚ) (nu : String)
    (f : ℚ) (h : convert_unit v "um" = .ok (nv, nu, f)) :
    convert_unit v "px" = .ok (nv, "px", f) := by
  rw [convert_unit_nonpx v "um" (by decide)] at h
  rw [convert_unit_px_core]
  exact convert_unit_core_px_flag v "um" nv nu f h

/-- Witness for C5 at `v = 1`. -/
theorem convert_unit_px_sentinel_witness :
    (0 : ℚ) < 1 ∧ convert_unit 1 "px" = .ok (1, "px", 1) := by
  have hum : convert_unit 1 "um" = .ok (1, "um", 1) := by
    rw [convert_unit_nonpx 1 "um" (by decide)]
    exact (convert_unit_core_ok 1 "um" "um" ((10 : ℚ) ^ (-(6 : ℤ))) false
      (-6) ("um", (10 : ℚ) ^ (-(6 : ℤ)))
      (by decide) (by decide) (by decide) (by decide)).trans (by decide)
  exact ⟨by norm_num, convert_unit_px_sentinel 1 (by norm_num) 1 "um" 1 hum⟩

/-- C10: the index computation is unguarded.  At `10^-18 nm` (that is,
`10^-27` metres, below the table's smallest multiplier `10^-24`) the computed
suitable-unit index is `-1`; Python's negative indexing silently wraps to the
opposite, large-prefix end of the table, returning unit `"Ym"` and a
`new_value` outside `[1, 1000)` without any error.  At `10^30` metres the
index is `18`, out of range even after wrap-around, and the lookup fails
with the indexing error. -/
theorem convert_unit_unguarded_indices :
    convert_unit ((10 : ℚ) ^ (-(18 : ℤ))) "nm"
        = .ok ((10 : ℚ) ^ (-(51 : ℤ)), "Ym", (10 : ℚ) ^ ((33 : ℤ))) ∧
    (10 : ℚ) ^ (-(51 : ℤ)) < 1 ∧
    Int.fdiv (Int.log 10 ((10 : ℚ) ^ (-(18 : ℤ)) * (10 : ℚ) ^ (-(9 : ℤ)))) 3 + 8
        = -1 ∧
    convert_unit ((10 : ℚ) ^ ((30 : ℤ))) "m" = .error .indexOutOfRange := by
  have hlog1 : Int.log 10 ((10 : ℚ) ^ (-(18 : ℤ)) * (10 : ℚ) ^ (-(9 : ℤ)))
      = -27 := int_log_eq (by decide) (by decide)
  refine ⟨?_, by decide, by rw [hlog1]; decide, ?_⟩
  · rw [convert_unit_nonpx _ "nm" (by decide)]
    exact (convert_unit_core_ok _ "nm" "nm" ((10 : ℚ) ^ (-(9 : ℤ))) false
      (-27) ("Ym", (10 : ℚ) ^ ((24 : ℤ)))
      (by decide) (by decide) (by decide) (by decide)).trans (by decide)
  · rw [convert_unit_nonpx _ "m" (by decide)]
    exact convert_unit_core_idx_err _ "m" "m" 1 false 30
      (by decide) (by decide) (by decide) (by decide)

/-- The `good_values` array of `add_scalebar` (source line 268). -/
def good_values : List ℚ :=
  [1, 2, 5, 10, 15, 20, 25, 50, 75, 100, 125, 150, 200, 500, 750]

/-- First-index argmin of `|x - g|` over a list, accumulator style: a later
element replaces the current best only when its difference is strictly
smaller, which is `np.where(difference == difference.min())[0][0]`. -/
def argminAbs (x : ℚ) : List ℚ → ℚ → ℚ
  | [], best => best
  | g :: gs, best => argminAbs x gs (if |x - g| < |x - best| then g else best)

/-- `good_values[np.where(difference == difference.min())[0][0]]` of the
source: the good value closest to `x`, earliest on ties. -/
def closest_good_value (x : ℚ) : ℚ :=
  match good_values with
  | [] => 0
  | g :: gs => argminAbs x gs g

/-- The numeric outcome of `add_scalebar` (source lines 253-297): the final
scalebar width (`int(...)` keeps the numeric value, so one rational field
suffices), the width in pixels, and whether the non-integer warning was
emitted.  The cosmetic label formatting and the `AnchoredSizeBar` plumbing
carry no further numeric content. -/
structure ScalebarResult where
  scalebar_width : ℚ
  scalebar_width_px : ℚ
  warned : Bool
deriving DecidableEq

/-- Shallow embedding of the width computation of `add_scalebar` in
`orix/plot/crystal_map_plot.py` (lines 253-297): the initial width is
`0.1 * map_width * step_size`, converted by `convert_unit`; the closest good
value is scaled back by the conversion factor; a non-integral final width
emits a (non-fatal) warning, an integral one is converted to `int`. -/
def add_scalebar (map_width : ℕ) (step_size : ℚ) (scan_unit : String) :
    Except ConvError ScalebarResult :=
  match convert_unit (1 / 10 * (map_width : ℚ) * step_size) scan_unit with
  | .error e => .error e
  | .ok (scalebar_width0, _, factor) =>
    let width := closest_good_value scalebar_width0 * factor
    .ok { scalebar_width := width,
          scalebar_width_px := width / step_size,
          warned := !width.isInt }

/-- C9: whenever the unit conversion inside `add_scalebar` succeeds, the call
completes and returns a scalebar whose width is the chosen good value times
the conversion factor, and the non-fatal warning is emitted exactly when that
width is not an integer. -/
theorem add_scalebar_warning (mw : ℕ) (ss : ℚ) (su : String)
    (v : ℚ) (nu : String) (f : ℚ)
    (h : convert_unit (1 / 10 * (mw : ℚ) * ss) su = .ok (v, nu, f)) :
    ∃ r, add_scalebar mw ss su = .ok r ∧
      r.scalebar_width = closest_good_value v * f ∧
      (r.warned = true ↔ r.scalebar_width.isInt = false) := by
  refine ⟨{ scalebar_width := closest_good_value v * f,
            scalebar_width_px := closest_good_value v * f / ss,
            warned := !(closest_good_value v * f).isInt }, ?_, rfl, ?_⟩
  · simp only [add_scalebar, h]
  · simp only [Bool.not_eq_true']

/-- Witness for C9: a `mm` scan whose converted width `0.005` triggers the
warning, and a `um` scan whose width `1` does not. -/
theorem add_scalebar_warning_witness :
    (convert_unit (1 / 10 * ((10 : ℕ) : ℚ) * (1 / 200)) "mm"
        = .ok (5, "um", 1 / 1000) ∧
      ∃ r, add_scalebar 10 (1 / 200) "mm" = .ok r ∧
        r.scalebar_width = closest_good_value 5 * (1 / 1000) ∧
        (r.warned = true ↔ r.scalebar_width.isInt = false)) ∧
    (convert_unit (1 / 10 * ((100 : ℕ) : ℚ) * (1 / 10)) "um"
        = .ok (1, "um", 1) ∧
      ∃ r, add_scalebar 100 (1 / 10) "um" = .ok r ∧
        r.scalebar_width = closest_good_value 1 * 1 ∧
        (r.warned = true ↔ r.scalebar_width.isInt = false)) := by
  have h1 : convert_unit (1 / 10 * ((10 : ℕ) : ℚ) * (1 / 200)) "mm"
      = .ok (5, "um", 1 / 1000) := by
    rw [show (1 / 10 * ((10 : ℕ) : ℚ) * (1 / 200)) = 1 / 200 by norm_num]
    rw [convert_unit_nonpx _ "mm" (by decide)]
    exact (convert_unit_core_ok (1 / 200) "mm" "mm" ((10 : ℚ) ^ (-(3 : ℤ)))
      false (-6) ("um", (10 : ℚ) ^ (-(6 : ℤ)))
      (by decide) (by decide) (by decide) (by decide)).trans (by decide)
  have h2 : convert_unit (1 / 10 * ((100 : ℕ) : ℚ) * (1 / 10)) "um"
      = .ok (1, "um", 1) := by
    rw [show (1 / 10 * ((100 : ℕ) : ℚ) * (1 / 10)) = 1 by norm_num]
    rw [convert_unit_nonpx _ "um" (by decide)]
    exact (convert_unit_core_ok 1 "um" "um" ((10 : ℚ) ^ (-(6 : ℤ)))
      false (-6) ("um", (10 : ℚ) ^ (-(6 : ℤ)))
      (by decide) (by decide) (by decide) (by decide)).trans (by decide)
  exact ⟨⟨h1, add_scalebar_warning 10 (1 / 200) "mm" 5 "um" (1 / 1000) h1⟩,
    ⟨h2, add_scalebar_warning 100 (1 / 10) "um" 1 "um" 1 h2⟩⟩

/-!
The orientation-symmetry reduction engine (`texpy.quaternion`: `Rotation`,
`Orientation.set_symmetry`, the point-group constants) is exercised by
`src/tests/test_orientation.py` but its implementation is not part of this
excerpt, so it is modelled from the spec below.  Quaternion components live
in the computable quadratic fields `ℚ[√2]` and `ℚ[√3]`, where the point-group
constants (cosines and sines of half-angles of the C3/C4 rotations) are
exact. -/

/-- Modelled from the spec: the coefficient field for exact symmetry-group
constants.  `⟨a, b⟩` represents the real number `a + b·√d`. -/
structure Qsqrt (d : ℕ) where
  a : ℚ
  b : ℚ
deriving DecidableEq

@[ext] theorem Qsqrt.ext {d : ℕ} {p q : Qsqrt d}
    (ha : p.a = q.a) (hb : p.b = q.b) : p = q := by
  cases p; cases q; cases ha; cases hb; rfl

instance {d : ℕ} : Zero (Qsqrt d) := ⟨⟨0, 0⟩⟩

instance {d : ℕ} : One (Qsqrt d) := ⟨⟨1, 0⟩⟩

instance {d : ℕ} : Add (Qsqrt d) := ⟨fun p q => ⟨p.a + q.a, p.b + q.b⟩⟩

instance {d : ℕ} : Neg (Qsqrt d) := ⟨fun p => ⟨-p.a, -p.b⟩⟩

instance {d : ℕ} : Mul (Qsqrt d) :=
  ⟨fun p q => ⟨p.a * q.a + d * p.b * q.b, p.a * q.b + p.b * q.a⟩⟩

@[simp] theorem Qsqrt.zero_a {d : ℕ} : (0 : Qsqrt d).a = 0 := rfl

@[simp] theorem Qsqrt.zero_b {d : ℕ} : (0 : Qsqrt d).b = 0 := rfl

@[simp] theorem Qsqrt.one_a {d : ℕ} : (1 : Qsqrt d).a = 1 := rfl

@[simp] theorem Qsqrt.one_b {d : ℕ} : (1 : Qsqrt d).b = 0 := rfl

@[simp] theorem Qsqrt.add_a {d : ℕ} (p q : Qsqrt d) :
    (p + q).a = p.a + q.a := rfl

@[simp] theorem Qsqrt.add_b {d : ℕ} (p q : Qsqrt d) :
    (p + q).b = p.b + q.b := rfl

@[simp] theorem Qsqrt.neg_a {d : ℕ} (p : Qsqrt d) : (-p).a = -p.a := rfl

@[simp] theorem Qsqrt.neg_b {d : ℕ} (p : Qsqrt d) : (-p).b = -p.b := rfl

@[simp] theorem Qsqrt.mul_a {d : ℕ} (p q : Qsqrt d) :
    (p * q).a = p.a * q.a + d * p.b * q.b := rfl

@[simp] theorem Qsqrt.mul_b {d : ℕ} (p q : Qsqrt d) :
    (p * q).b = p.a * q.b + p.b * q.a := rfl

instance {d : ℕ} : CommRing (Qsqrt d) where
  add_assoc p q r := by ext <;> simp <;> ring
  zero_add p := by ext <;> simp
  add_zero p := by ext <;> simp
  add_comm p q := by ext <;> simp <;> ring
  left_distrib p q r := by ext <;> simp <;> ring
  right_distrib p q r := by ext <;> simp <;> ring
  zero_mul p := by ext <;> simp
  mul_zero p := by ext <;> simp
  mul_assoc p q r := by ext <;> simp <;> ring
  one_mul p := by ext <;> simp
  mul_one p := by ext <;> simp
  mul_comm p q := by ext <;> simp <;> ring
  neg_add_cancel p := by ext <;> simp
  nsmul := nsmulRec
  zsmul := zsmulRec

/-- Modelled from the spec: a quaternion `(w, x, y, z)` with components in a
commutative ring, the `Rotation` data of `texpy.quaternion`. -/
structure Quat (R : Type) where
  w : R
  x : R
  y : R
  z : R
deriving DecidableEq

/-- Hamilton product of two quaternions. -/
def qmul {R : Type} [CommRing R] (p q : Quat R) : Quat R :=
  ⟨p.w * q.w - p.x * q.x - p.y * q.y - p.z * q.z,
   p.w * q.x + p.x * q.w + p.y * q.z - p.z * q.y,
   p.w * q.y - p.x * q.z + p.y * q.w + p.z * q.x,
   p.w * q.z + p.x * q.y - p.y * q.x + p.z * q.w⟩

/-- Quaternion conjugate (the inverse of a unit quaternion). -/
def qconj {R : Type} [CommRing R] (q : Quat R) : Quat R :=
  ⟨q.w, -q.x, -q.y, -q.z⟩

/-- Quaternion negation: `-q` represents the same rotation (double cover). -/
def qneg {R : Type} [CommRing R] (q : Quat R) : Quat R :=
  ⟨-q.w, -q.x, -q.y, -q.z⟩

/-- The identity quaternion. -/
def qone {R : Type} [CommRing R] : Quat R := ⟨1, 0, 0, 0⟩

/-- A 3-vector with components in `R` (the `Vector3d` data). -/
abbrev Vec3 (R : Type) : Type := R × R × R

/-- Modelled from the spec: the rotation action of a quaternion on a
`Vector3d`: embed the vector as a pure quaternion, conjugate by `q`, and take
the vector part. -/
def rotv {R : Type} [CommRing R] (q : Quat R) (v : Vec3 R) : Vec3 R :=
  let p := qmul (qmul q ⟨0, v.1, v.2.1, v.2.2⟩) (qconj q)
  (p.x, p.y, p.z)

/-- The rotation action of a Hamilton product is the composition of the
actions (a polynomial identity, valid without a unit-norm assumption). -/
theorem rotv_qmul {R : Type} [CommRing R] (p q : Quat R) (v : Vec3 R) :
    rotv (qmul p q) v = rotv p (rotv q v) := by
  obtain ⟨pw, px, py, pz⟩ := p
  obtain ⟨qw, qx, qy, qz⟩ := q
  obtain ⟨a, b, c⟩ := v
  simp only [rotv, qmul, qconj, Prod.mk.injEq]
  refine ⟨by ring, by ring, by ring⟩

/-- `q` and `-q` act identically on vectors (double cover). -/
theorem rotv_qneg {R : Type} [CommRing R] (q : Quat R) (v : Vec3 R) :
    rotv (qneg q) v = rotv q v := by
  obtain ⟨qw, qx, qy, qz⟩ := q
  obtain ⟨a, b, c⟩ := v
  simp only [rotv, qmul, qconj, qneg, Prod.mk.injEq]
  refine ⟨by ring, by ring, by ring⟩

/-- Composing with a group element on the right, then acting on a rotated
vector, is acting by the product of the group elements first. -/
theorem rotv_qmul_assoc {R : Type} [CommRing R] (o p q : Quat R)
    (u : Vec3 R) :
    rotv (qmul o p) (rotv q u) = rotv o (rotv (qmul p q) u) := by
  rw [rotv_qmul, rotv_qmul]

/-- Multiplying by the identity quaternion on the right changes nothing. -/
theorem qmul_qone {R : Type} [CommRing R] (q : Quat R) : qmul q qone = q := by
  obtain ⟨qw, qx, qy, qz⟩ := q
  simp [qmul, qone]

/-- Modelled from the spec: decidable non-negativity of `a + b·√d`, by sign
analysis and comparison of squares. -/
def Qsqrt.nonnegB {d : ℕ} (q : Qsqrt d) : Bool :=
  if 0 ≤ q.a then
    if 0 ≤ q.b then true
    else decide ((d : ℚ) * q.b ^ 2 ≤ q.a ^ 2)
  else
    if 0 ≤ q.b then decide (q.a ^ 2 ≤ (d : ℚ) * q.b ^ 2)
    else false

/-- `p ≤ q` on `ℚ[√d]`, via non-negativity of the difference. -/
def Qsqrt.leB {d : ℕ} (p q : Qsqrt d) : Bool := (q - p).nonnegB

/-- Strict `p < q` on `ℚ[√d]`: not `q ≤ p`. -/
def Qsqrt.ltB {d : ℕ} (p q : Qsqrt d) : Bool := !(p - q).nonnegB

/-- Absolute value on `ℚ[√d]`. -/
def Qsqrt.qabs {d : ℕ} (q : Qsqrt d) : Qsqrt d := if q.nonnegB then q else -q

/-- Modelled from the spec: the orientation reduction engine
(`Orientation.set_symmetry` of `texpy.quaternion.orientation`).  The orbit is
built by composing the orientation with each group element (right action; the
group element rotates the vector first, which is the composition order under
which the repository's `test_orientation_persistence` scenario holds), and
the candidate whose quaternion scalar part has the largest magnitude —
closest to the identity rotation — is selected, the lowest group index
winning ties.  The sign of the selected representative is kept as produced
by the group action, as exercised by the repository's `test_set_symmetry`
expectations. -/
def set_symmetry {d : ℕ} (o : Quat (Qsqrt d)) (G : List (Quat (Qsqrt d))) :
    Quat (Qsqrt d) :=
  match G.map fun g => qmul o g with
  | [] => o
  | c :: cs =>
    cs.foldl (fun best c2 => if best.w.qabs.ltB c2.w.qabs then c2 else best) c

/-- Modelled from the spec: the `C4` point-group constants — the four
rotations about the z-axis by multiples of 90 degrees, as unit quaternions
`(cos(θ/2), 0, 0, sin(θ/2))` with components in `ℚ[√2]` (the half-angle
cosine of the 270-degree element is negative in the fixed table of
constants, matching the repository's test expectations). -/
def C4grp : List (Quat (Qsqrt 2)) :=
  [⟨1, 0, 0, 0⟩,
   ⟨⟨0, 1/2⟩, 0, 0, ⟨0, 1/2⟩⟩,
   ⟨0, 0, 0, 1⟩,
   ⟨⟨0, -(1/2)⟩, 0, 0, ⟨0, 1/2⟩⟩]

/-- Modelled from the spec: the `C3` point-group constants — rotations about
the z-axis by multiples of 120 degrees, with components in `ℚ[√3]`. -/
def e3 : Quat (Qsqrt 3) := ⟨1, 0, 0, 0⟩

/-- The 120-degree element of `C3`: `(1/2, 0, 0, (√3)/2)`. -/
def g3a : Quat (Qsqrt 3) := ⟨⟨1/2, 0⟩, 0, 0, ⟨0, 1/2⟩⟩

/-- The 240-degree element of `C3`: `(-1/2, 0, 0, (√3)/2)`. -/
def g3b : Quat (Qsqrt 3) := ⟨⟨-(1/2), 0⟩, 0, 0, ⟨0, 1/2⟩⟩

/-- The `C3` group as an ordered list. -/
def C3grp : List (Quat (Qsqrt 3)) := [e3, g3a, g3b]

/-- The input orientation of the concrete `test_set_symmetry` case:
the quaternion `(0.6088, 0, 0, 0.7934)` (a rotation by `7π/12` about z). -/
def oC6 : Quat (Qsqrt 2) := ⟨⟨0.6088, 0⟩, 0, 0, ⟨0.7934, 0⟩⟩

set_option maxRecDepth 8000 in
/-- C6: reducing the orientation `(0.6088, 0, 0, 0.7934)` under the `C4`
point group yields `(-0.9914, 0, 0, -0.1305)`, each component matching
within the absolute tolerance `10^-3` (the comparisons are carried out with
the decidable order of `ℚ[√2]`). -/
theorem set_symmetry_c4_concrete :
    ((set_symmetry oC6 C4grp).w - ⟨-(0.9914), 0⟩).qabs.leB ⟨1/1000, 0⟩ = true ∧
    ((set_symmetry oC6 C4grp).x - 0).qabs.leB ⟨1/1000, 0⟩ = true ∧
    ((set_symmetry oC6 C4grp).y - 0).qabs.leB ⟨1/1000, 0⟩ = true ∧
    ((set_symmetry oC6 C4grp).z - ⟨-(0.1305), 0⟩).qabs.leB ⟨1/1000, 0⟩ = true := by
  refine ⟨by decide, by decide, by decide, by decide⟩

/-- A best-so-far fold selects one of the starting element and the list
elements. -/
theorem foldl_best_mem {α : Type} (p : α → α → Bool) :
    ∀ (l : List α) (a : α),
      l.foldl (fun best c => if p best c then c else best) a ∈ a :: l := by
  intro l
  induction l with
  | nil => intro a; simp
  | cons c cs ih =>
    intro a
    simp only [List.foldl_cons]
    have h := ih (if p a c then c else a)
    rcases List.mem_cons.mp h with h1 | h1
    · rw [h1]
      split
      · simp
      · simp
    · simp [List.mem_cons, h1]

/-- The reduced orientation is one of the orbit candidates
`o ∘ g` for `g` in the group. -/
theorem set_symmetry_mem {d : ℕ} (o : Quat (Qsqrt d))
    (G : List (Quat (Qsqrt d))) (h : G ≠ []) :
    set_symmetry o G ∈ G.map fun g => qmul o g := by
  unfold set_symmetry
  cases hG : G.map fun g => qmul o g with
  | nil => exact absurd (List.map_eq_nil_iff.mp hG) h
  | cons c cs =>
    exact foldl_best_mem _ cs c

/-- Floor of `a + b·√d` computed exactly: put the number over a common
denominator `(A + B·√d)/D`, replace `B·√d` by `±√(d·B²)` and use the integer
square root, correcting by one when `B < 0` and `d·B²` is not a perfect
square, then divide by `D` with floor division. -/
def Qsqrt.floorQ {d : ℕ} (q : Qsqrt d) : ℤ :=
  let A : ℤ := q.a.num * (q.b.den : ℤ)
  let B : ℤ := q.b.num * (q.a.den : ℤ)
  let D : ℤ := (q.a.den : ℤ) * (q.b.den : ℤ)
  let s : ℤ := (Nat.sqrt (d * B.natAbs ^ 2) : ℤ)
  let T : ℤ :=
    if 0 ≤ B then A + s
    else if d * B.natAbs ^ 2 = s.toNat ^ 2 then A - s else A - s - 1
  Int.fdiv T D

/-- `np.round(x, 4)` modelled on `ℚ[√d]`: scale by `10^4`, round to the
nearest integer (half away from zero on exact halves) and rescale. -/
def round4 {d : ℕ} (q : Qsqrt d) : ℚ :=
  (((⟨10000, 0⟩ : Qsqrt d) * q + ⟨1/2, 0⟩).floorQ : ℚ) / 10000

/-- Componentwise rounding of a vector to four decimals. -/
def round4v {d : ℕ} (v : Vec3 (Qsqrt d)) : ℚ × ℚ × ℚ :=
  (round4 v.1, round4 v.2.1, round4 v.2.2)

/-- The vector `(1, 1, 1)` of the persistence scenario. -/
def u111 : Vec3 (Qsqrt 3) := (1, 1, 1)

/-- `v = C3.outer(Vector3d((1,1,1))).flatten()`: one rotated copy of
`(1,1,1)` per group element, in group order. -/
def C3vecs : List (Vec3 (Qsqrt 3)) := C3grp.map fun g => rotv g u111

/-- The identity element of `C3` is the identity quaternion. -/
theorem e3_eq_qone : e3 = qone := rfl

/-- Group table of `C3` in `ℚ[√3]` (up to the quaternion double cover). -/
theorem g3a_mul_e3 : qmul g3a e3 = g3a := by decide

/-- 120° composed with itself is 240°. -/
theorem g3a_mul_g3a : qmul g3a g3a = g3b := by decide

/-- 120° composed with 240° is the identity rotation (negated lift). -/
theorem g3a_mul_g3b : qmul g3a g3b = qneg e3 := by decide

/-- 240° composed with the identity. -/
theorem g3b_mul_e3 : qmul g3b e3 = g3b := by decide

/-- 240° composed with 120° is the identity rotation (negated lift). -/
theorem g3b_mul_g3a : qmul g3b g3a = qneg e3 := by decide

/-- 240° composed with itself is 120° (negated lift). -/
theorem g3b_mul_g3b : qmul g3b g3b = qneg g3a := by decide

set_option maxHeartbeats 2000000 in
/-- C7: orientation persistence for `C3` and the vector `(1,1,1)`: for every
orientation `o`, the set of transformed vectors of the orbit
`v = C3.outer((1,1,1))` produced by `o` equals, after rounding each
component to four decimals, the set produced by the symmetrized orientation
`oc = o.set_symmetry(C3)`. -/
theorem orientation_persistence_c3 (o : Quat (Qsqrt 3)) (t : ℚ × ℚ × ℚ) :
    t ∈ C3vecs.map (fun v => round4v (rotv o v)) ↔
      t ∈ C3vecs.map fun v => round4v (rotv (set_symmetry o C3grp) v) := by
  have hmem := set_symmetry_mem o C3grp (by decide)
  rw [show C3grp.map (fun g => qmul o g)
      = [qmul o e3, qmul o g3a, qmul o g3b] from by simp [C3grp]] at hmem
  simp only [List.mem_cons, List.not_mem_nil, or_false] at hmem
  have hvecs : C3vecs = [rotv e3 u111, rotv g3a u111, rotv g3b u111] := by
    simp [C3vecs, C3grp]
  rcases hmem with h | h | h
  · rw [h]
    rw [show qmul o e3 = o from by
      obtain ⟨ow, ox, oy, oz⟩ := o
      simp [qmul, e3]]
  · rw [h, hvecs]
    simp only [List.map_cons, List.map_nil, List.mem_cons, List.not_mem_nil,
      or_false, rotv_qmul_assoc, g3a_mul_e3, g3a_mul_g3a, g3a_mul_g3b,
      rotv_qneg]
    constructor
    · rintro (h1 | h1 | h1)
      · exact Or.inr (Or.inr h1)
      · exact Or.inl h1
      · exact Or.inr (Or.inl h1)
    · rintro (h1 | h1 | h1)
      · exact Or.inr (Or.inl h1)
      · exact Or.inr (Or.inr h1)
      · exact Or.inl h1
  · rw [h, hvecs]
    simp only [List.map_cons, List.map_nil, List.mem_cons, List.not_mem_nil,
      or_false, rotv_qmul_assoc, g3b_mul_e3, g3b_mul_g3a, g3b_mul_g3b,
      rotv_qneg]
    constructor
    · rintro (h1 | h1 | h1)
      · exact Or.inr (Or.inl h1)
      · exact Or.inr (Or.inr h1)
      · exact Or.inl h1
    · rintro (h1 | h1 | h1)
      · exact Or.inr (Or.inr h1)
      · exact Or.inl h1
      · exact Or.inr (Or.inl h1)

/-- Modelled from the spec: the observable effect of a `set_symmetry` call on
program state — the quaternion data of the input orientation after the call,
paired with the returned orientation.  The engine builds its result from the
orbit candidates and never writes to its input's data. -/
def set_symmetry_state {d : ℕ} (o : Quat (Qsqrt d))
    (G : List (Quat (Qsqrt d))) : Quat (Qsqrt d) × Quat (Qsqrt d) :=
  (o, set_symmetry o G)

/-- C8: `set_symmetry` does not mutate its input: after the call the input
orientation's quaternion data is unchanged, and the returned orientation is
a value built from the orbit `o ∘ g`, `g` in the group — a new object, not a
view of the input. -/
theorem set_symmetry_no_mutation {d : ℕ} (o : Quat (Qsqrt d))
    (G : List (Quat (Qsqrt d))) :
    (set_symmetry_state o G).1 = o ∧
      (G ≠ [] → (set_symmetry_state o G).2 ∈ G.map fun g => qmul o g) :=
  ⟨rfl, fun h => set_symmetry_mem o G h⟩

/-- Witness for C8 at the concrete `C4` reduction input. -/
theorem set_symmetry_no_mutation_witness :
    (set_symmetry_state oC6 C4grp).1 = oC6 ∧
      (set_symmetry_state oC6 C4grp).2 ∈ C4grp.map fun g => qmul oC6 g :=
  ⟨(set_symmetry_no_mutation oC6 C4grp).1,
    (set_symmetry_no_mutation oC6 C4grp).2 (by decide)⟩
